import Mathlib

set_option maxHeartbeats 1000000

/-!
Verification of the codeshield-backend pipeline core against its specification.

The definitions below are a shallow embedding of:
* `app/utils/pipeline_utils.py` — path filtering (`should_exclude_path`),
  source extraction (`extract_source_code`) and chunking (`chunk_code`);
* `app/controllers/pipeline.py` — the pipeline orchestrator (`run_pipeline`);
* `app/utils/mongo_utils.py` — upsert persistence (`save_pipeline_result`,
  `save_vulnerability_report`) and severity aggregation.

Python strings are modelled as Lean `String` (Python `len` = `String.length`,
i.e. character count, which is what the source measures everywhere);
Python lists as Lean `List`; Python dict results as Lean structures;
`datetime.now()` values as an abstract `Nat` clock passed in explicitly;
exceptions as `Except`/`Option` results; the filesystem and the external
collaborators (git clone, the analysis engine, MongoDB) as explicit inputs
describing the outcome of each effectful call.
-/

namespace CodeShield

/-- CHUNK_SIZE from pipeline_utils.py line 73. -/
def CHUNK_SIZE : Nat := 12000

/-- Splitting a character list on a separator, the semantics of Python
`str.split(sep)` for a one-character separator: always returns at least one
(possibly empty) piece, one more piece per separator occurrence. -/
def splitChars (sep : Char) : List Char → List (List Char)
  | [] => [[]]
  | c :: cs =>
    match splitChars sep cs with
    | [] => [[]]
    | l :: ls => if c = sep then [] :: l :: ls else (c :: l) :: ls

/-- Python `code.split('\n')` (pipeline_utils.py line 307). -/
def splitLines (s : String) : List String :=
  (splitChars '\n' s.data).map String.mk

/-- Python `name.split('/')[-1]` (pipeline.py line 34). -/
def lastSegment (s : String) : String :=
  String.mk ((splitChars '/' s.data).getLastD [])

/-- One chunk dictionary produced by `chunk_code` (pipeline_utils.py lines
334-340 and 365-371).  `src_lines` additionally records the source lines the
chunk was built from (`current_chunk_lines` at emission time), from which
`code_snippet` is derived; the Python dict stores only the other five keys. -/
structure Chunk where
  file_path : String
  chunk_id : Nat
  start_line : Nat
  end_line : Nat
  code_snippet : String
  src_lines : List String
deriving DecidableEq

/-- Chunk emission (pipeline_utils.py lines 320-340 and 352-371): header with
file path and line range, then each line prefixed with its absolute 1-based
line number. -/
def mkChunk (fp : String) (cid : Nat) (off : Nat) (cur : List String) : Chunk :=
  let startLine := off
  let endLine := off + cur.length - 1
  let header := "### FILE: " ++ fp ++ "\n### LINES: " ++ toString startLine ++
    "-" ++ toString endLine ++ "\n"
  let numbered := cur.enum.map
    (fun p => "# " ++ toString (startLine + p.1) ++ ": " ++ p.2)
  { file_path := fp
    chunk_id := cid
    start_line := startLine
    end_line := endLine
    code_snippet := header ++ String.intercalate "\n" numbered
    src_lines := cur }

theorem mkChunk_file_path (fp : String) (cid off : Nat) (cur : List String) :
    (mkChunk fp cid off cur).file_path = fp := rfl

theorem mkChunk_chunk_id (fp : String) (cid off : Nat) (cur : List String) :
    (mkChunk fp cid off cur).chunk_id = cid := rfl

theorem mkChunk_start_line (fp : String) (cid off : Nat) (cur : List String) :
    (mkChunk fp cid off cur).start_line = off := rfl

theorem mkChunk_end_line (fp : String) (cid off : Nat) (cur : List String) :
    (mkChunk fp cid off cur).end_line = off + cur.length - 1 := rfl

theorem mkChunk_src_lines (fp : String) (cid off : Nat) (cur : List String) :
    (mkChunk fp cid off cur).src_lines = cur := rfl

/-- The accumulation loop of `chunk_code` (pipeline_utils.py lines 314-371):
`cur` is `current_chunk_lines`, `csize` is `current_chunk_size`, `off` is
`line_offset`, `cid` is `chunk_id`.  Before adding a line, if the buffer is
non-empty and adding the line would exceed `CHUNK_SIZE`, the buffer is closed
as one chunk; the remaining buffer is flushed after the loop. -/
def chunkLoop (fp : String) : List String → Nat → List String → Nat → Nat → List Chunk
  | [], cid, cur, _, off =>
    if cur = [] then [] else [mkChunk fp cid off cur]
  | line :: rest, cid, cur, csize, off =>
    let lineSize := line.length + 1
    if CHUNK_SIZE < csize + lineSize ∧ cur ≠ [] then
      mkChunk fp cid off cur ::
        chunkLoop fp rest (cid + 1) [line] lineSize (off + cur.length)
    else
      chunkLoop fp rest cid (cur ++ [line]) (csize + lineSize) off

/-- Function chunk_code from pipeline_utils.py lines 295-373. -/
def chunk_code (fp : String) (code : String) : List Chunk :=
  chunkLoop fp (splitLines code) 1 [] 0 1

/-- Byte size of a chunk as measured by the chunker: the sum of the sizes of
its lines, each line re-terminated by a newline (`line_size = len(line) + 1`,
pipeline_utils.py line 316). -/
def sizeSum (ls : List String) : Nat :=
  (ls.map (fun l => l.length + 1)).sum

def chunkBytes (c : Chunk) : Nat :=
  sizeSum c.src_lines

/-- Predicate chainFrom: `chainFrom cs lo hi` says the chunks `cs` cover exactly the line interval
`[lo, hi)` in order: each chunk starts where demanded, spans at least one
line, the next chunk starts at `end_line + 1`, and the last one ends at
`hi - 1` — no gaps, no overlaps. -/
def chainFrom : List Chunk → Nat → Nat → Prop
  | [], lo, hi => lo = hi
  | c :: rest, lo, hi =>
    c.start_line = lo ∧ c.start_line ≤ c.end_line ∧ chainFrom rest (c.end_line + 1) hi

/-- Predicate idsFrom: `idsFrom cs k` says the chunk ids are `k, k+1, k+2, …` in order. -/
def idsFrom : List Chunk → Nat → Prop
  | [], _ => True
  | c :: rest, k => c.chunk_id = k ∧ idsFrom rest (k + 1)

theorem chainFrom_nil (lo hi : Nat) : chainFrom [] lo hi ↔ lo = hi := Iff.rfl

theorem chainFrom_cons (c : Chunk) (rest : List Chunk) (lo hi : Nat) :
    chainFrom (c :: rest) lo hi ↔
      c.start_line = lo ∧ c.start_line ≤ c.end_line ∧ chainFrom rest (c.end_line + 1) hi :=
  Iff.rfl

theorem idsFrom_nil (k : Nat) : idsFrom [] k ↔ True := Iff.rfl

theorem idsFrom_cons (c : Chunk) (rest : List Chunk) (k : Nat) :
    idsFrom (c :: rest) k ↔ c.chunk_id = k ∧ idsFrom rest (k + 1) := Iff.rfl

theorem splitChars_ne_nil (sep : Char) (cs : List Char) :
    splitChars sep cs ≠ [] := by
  induction cs with
  | nil => simp [splitChars]
  | cons c cs ih =>
    cases h : splitChars sep cs with
    | nil => exact absurd h ih
    | cons l ls =>
      simp only [splitChars, h]
      split <;> simp

theorem splitLines_ne_nil (s : String) : splitLines s ≠ [] := by
  simpa [splitLines] using splitChars_ne_nil '\n' s.data

theorem chunkLoop_chain (fp : String) (rest : List String) :
    ∀ cid cur csize off, cur ≠ [] ∨ rest ≠ [] →
      chainFrom (chunkLoop fp rest cid cur csize off) off (off + cur.length + rest.length) := by
  induction rest with
  | nil =>
    intro cid cur csize off h
    rcases h with h | h
    · have hlen : 0 < cur.length := List.length_pos.mpr h
      simp only [chunkLoop, if_neg h, chainFrom_cons, chainFrom_nil, mkChunk_start_line,
        mkChunk_end_line, List.length_nil, true_and]
      omega
    · exact absurd rfl h
  | cons line rest ih =>
    intro cid cur csize off _
    by_cases hc : CHUNK_SIZE < csize + (line.length + 1) ∧ cur ≠ []
    · have hlen : 0 < cur.length := List.length_pos.mpr hc.2
      simp only [chunkLoop, if_pos hc, chainFrom_cons, mkChunk_start_line, mkChunk_end_line,
        true_and]
      refine ⟨by omega, ?_⟩
      have h := ih (cid + 1) [line] (line.length + 1) (off + cur.length)
        (Or.inl (by simp))
      have harith : off + cur.length - 1 + 1 = off + cur.length := by omega
      rw [harith]
      have hlen2 : off + cur.length + [line].length + rest.length =
          off + cur.length + (line :: rest).length := by simp; omega
      rwa [hlen2] at h
    · simp only [chunkLoop, if_neg hc]
      have h := ih cid (cur ++ [line]) (csize + (line.length + 1)) off
        (Or.inl (by simp))
      have hlen2 : off + (cur ++ [line]).length + rest.length =
          off + cur.length + (line :: rest).length := by simp; omega
      rwa [hlen2] at h

theorem chunkLoop_ids (fp : String) (rest : List String) :
    ∀ cid cur csize off, idsFrom (chunkLoop fp rest cid cur csize off) cid := by
  induction rest with
  | nil =>
    intro cid cur csize off
    by_cases h : cur = [] <;>
      simp [chunkLoop, h, idsFrom_nil, idsFrom_cons, mkChunk_chunk_id]
  | cons line rest ih =>
    intro cid cur csize off
    by_cases hc : CHUNK_SIZE < csize + (line.length + 1) ∧ cur ≠ []
    · simp only [chunkLoop, if_pos hc, idsFrom_cons]
      exact ⟨mkChunk_chunk_id fp cid off cur,
        ih (cid + 1) [line] (line.length + 1) (off + cur.length)⟩
    · simp only [chunkLoop, if_neg hc]
      exact ih cid (cur ++ [line]) (csize + (line.length + 1)) off

theorem chunk_code_chain (fp code : String) :
    chainFrom (chunk_code fp code) 1 ((splitLines code).length + 1) := by
  have h := chunkLoop_chain fp (splitLines code) 1 [] 0 1
    (Or.inr (splitLines_ne_nil code))
  simp only [List.length_nil, Nat.add_zero] at h
  rwa [Nat.add_comm 1 (splitLines code).length] at h

/-- C1: for every file path and content string, the chunks returned by
`chunk_code` have line ranges that partition `1..N` (`N` the number of lines
of the file) with no gaps and no overlaps, in order, with `start_line` of
chunk `k+1` equal to `end_line` of chunk `k` plus one, and `chunk_id`
starting at 1 and ascending by 1. -/
theorem chunk_code_partition (fp code : String) :
    chainFrom (chunk_code fp code) 1 ((splitLines code).length + 1) ∧
      idsFrom (chunk_code fp code) 1 :=
  ⟨chunk_code_chain fp code, chunkLoop_ids fp (splitLines code) 1 [] 0 1⟩

theorem sizeSum_nil : sizeSum [] = 0 := rfl

theorem sizeSum_append (a b : List String) : sizeSum (a ++ b) = sizeSum a + sizeSum b := by
  simp [sizeSum]

theorem sizeSum_singleton (l : String) : sizeSum [l] = l.length + 1 := by
  simp [sizeSum]

/-- Every chunk the loop emits carries a non-empty line buffer, and its
`end_line` is `start_line + number of lines - 1`. -/
theorem chunkLoop_shape (fp : String) (rest : List String) :
    ∀ cid cur csize off c, c ∈ chunkLoop fp rest cid cur csize off →
      c.src_lines ≠ [] ∧ c.end_line + 1 = c.start_line + c.src_lines.length := by
  induction rest with
  | nil =>
    intro cid cur csize off c hc
    by_cases h : cur = []
    · simp [chunkLoop, h] at hc
    · have hlen : 0 < cur.length := List.length_pos.mpr h
      simp only [chunkLoop, if_neg h, List.mem_singleton] at hc
      subst hc
      refine ⟨by simpa [mkChunk_src_lines] using h, ?_⟩
      rw [mkChunk_end_line, mkChunk_start_line, mkChunk_src_lines]
      omega
  | cons line rest ih =>
    intro cid cur csize off c hc
    by_cases hcond : CHUNK_SIZE < csize + (line.length + 1) ∧ cur ≠ []
    · simp only [chunkLoop, if_pos hcond, List.mem_cons] at hc
      rcases hc with hc | hc
      · have hlen : 0 < cur.length := List.length_pos.mpr hcond.2
        subst hc
        refine ⟨by simpa [mkChunk_src_lines] using hcond.2, ?_⟩
        rw [mkChunk_end_line, mkChunk_start_line, mkChunk_src_lines]
        omega
      · exact ih (cid + 1) [line] (line.length + 1) (off + cur.length) c hc
    · simp only [chunkLoop, if_neg hcond] at hc
      exact ih cid (cur ++ [line]) (csize + (line.length + 1)) off c hc

/-- Loop invariant for the byte bound: the running size equals the buffer's
size, and the buffer is empty, within budget, or a single line; hence every
emitted chunk is within budget or a single line. -/
theorem chunkLoop_sizes (fp : String) (rest : List String) :
    ∀ cid cur csize off, csize = sizeSum cur →
      (cur = [] ∨ csize ≤ CHUNK_SIZE ∨ cur.length = 1) →
      ∀ c ∈ chunkLoop fp rest cid cur csize off,
        chunkBytes c ≤ CHUNK_SIZE ∨ c.src_lines.length = 1 := by
  induction rest with
  | nil =>
    intro cid cur csize off hsz hinv c hc
    by_cases h : cur = []
    · simp [chunkLoop, h] at hc
    · simp only [chunkLoop, if_neg h, List.mem_singleton] at hc
      subst hc
      rw [chunkBytes, mkChunk_src_lines]
      rcases hinv with hinv | hinv | hinv
      · exact absurd hinv h
      · exact Or.inl (hsz ▸ hinv)
      · exact Or.inr hinv
  | cons line rest ih =>
    intro cid cur csize off hsz hinv c hc
    by_cases hcond : CHUNK_SIZE < csize + (line.length + 1) ∧ cur ≠ []
    · simp only [chunkLoop, if_pos hcond, List.mem_cons] at hc
      rcases hc with hc | hc
      · subst hc
        rw [chunkBytes, mkChunk_src_lines]
        rcases hinv with hinv | hinv | hinv
        · exact absurd hinv hcond.2
        · exact Or.inl (hsz ▸ hinv)
        · exact Or.inr hinv
      · exact ih (cid + 1) [line] (line.length + 1) (off + cur.length)
          (by rw [sizeSum_singleton]) (Or.inr (Or.inr rfl)) c hc
    · simp only [chunkLoop, if_neg hcond] at hc
      refine ih cid (cur ++ [line]) (csize + (line.length + 1)) off ?_ ?_ c hc
      · rw [sizeSum_append, sizeSum_singleton, hsz]
      · by_cases h : cur = []
        · subst h
          exact Or.inr (Or.inr (by simp))
        · have : ¬ CHUNK_SIZE < csize + (line.length + 1) := fun hlt => hcond ⟨hlt, h⟩
          exact Or.inr (Or.inl (by omega))

theorem chunk_code_sizes (fp code : String) :
    ∀ c ∈ chunk_code fp code, chunkBytes c ≤ CHUNK_SIZE ∨ c.src_lines.length = 1 :=
  chunkLoop_sizes fp (splitLines code) 1 [] 0 1 rfl (Or.inl rfl)

/-- C2: no chunk produced by `chunk_code` exceeds `CHUNK_SIZE` bytes, except a
chunk consisting of a single line whose own size exceeds `CHUNK_SIZE`
(`start_line = end_line`); and a line whose size exceeds `CHUNK_SIZE` is never
split — the chunk containing it is exactly that one line. -/
theorem chunk_code_byte_bound (fp code : String) (c : Chunk)
    (hc : c ∈ chunk_code fp code) :
    (chunkBytes c ≤ CHUNK_SIZE ∨ c.start_line = c.end_line) ∧
      (∀ l ∈ c.src_lines, CHUNK_SIZE < l.length + 1 → c.src_lines = [l]) := by
  have hshape := chunkLoop_shape fp (splitLines code) 1 [] 0 1 c hc
  have hsz := chunk_code_sizes fp code c hc
  have hsingle : c.src_lines.length = 1 → ∃ a, c.src_lines = [a] :=
    fun h => List.length_eq_one.mp h
  constructor
  · rcases hsz with h | h
    · exact Or.inl h
    · right
      have := hshape.2
      omega
  · intro l hl hbig
    have hmem_le : l.length + 1 ≤ chunkBytes c := by
      rw [chunkBytes, sizeSum]
      exact List.single_le_sum (fun x _ => Nat.zero_le x) _
        (List.mem_map_of_mem (fun l => l.length + 1) hl)
    rcases hsz with h | h
    · omega
    · obtain ⟨a, ha⟩ := hsingle h
      rw [ha] at hl ⊢
      simp only [List.mem_singleton] at hl
      rw [hl]

theorem chunk_code_byte_bound_witness :
    (chunkBytes (mkChunk "a.py" 1 1 ["x"]) ≤ CHUNK_SIZE ∨
        (mkChunk "a.py" 1 1 ["x"]).start_line = (mkChunk "a.py" 1 1 ["x"]).end_line) ∧
      (∀ l ∈ (mkChunk "a.py" 1 1 ["x"]).src_lines,
        CHUNK_SIZE < l.length + 1 → (mkChunk "a.py" 1 1 ["x"]).src_lines = [l]) :=
  chunk_code_byte_bound "a.py" "x" (mkChunk "a.py" 1 1 ["x"]) (by decide)

theorem chunkLoop_ne_nil (fp : String) (rest : List String) :
    ∀ cid cur csize off, cur ≠ [] ∨ rest ≠ [] →
      chunkLoop fp rest cid cur csize off ≠ [] := by
  induction rest with
  | nil =>
    intro cid cur csize off h
    rcases h with h | h
    · simp [chunkLoop, if_neg h]
    · exact absurd rfl h
  | cons line rest ih =>
    intro cid cur csize off _
    by_cases hc : CHUNK_SIZE < csize + (line.length + 1) ∧ cur ≠ []
    · simp [chunkLoop, if_pos hc]
    · simp only [chunkLoop, if_neg hc]
      exact ih cid (cur ++ [line]) (csize + (line.length + 1)) off (Or.inl (by simp))

/-- C10: `chunk_code` always returns at least one chunk; on empty content it
returns exactly one chunk spanning line 1 to line 1 with `chunk_id` 1. -/
theorem chunk_code_nonempty_empty_content (fp code : String) :
    chunk_code fp code ≠ [] ∧
      chunk_code fp "" = [mkChunk fp 1 1 [""]] ∧
      (mkChunk fp 1 1 [""]).chunk_id = 1 ∧
      (mkChunk fp 1 1 [""]).start_line = 1 ∧
      (mkChunk fp 1 1 [""]).end_line = 1 := by
  refine ⟨chunkLoop_ne_nil fp (splitLines code) 1 [] 0 1
    (Or.inr (splitLines_ne_nil code)), ?_, rfl, rfl, rfl⟩
  rfl

theorem splitChars_cons_of_eq (sep : Char) (cs : List Char) (l : List Char)
    (ls : List (List Char)) (h : splitChars sep cs = l :: ls) :
    splitChars sep (sep :: cs) = [] :: l :: ls := by
  simp [splitChars, h]

theorem splitChars_cons_of_ne (sep c : Char) (cs : List Char) (hc : ¬ c = sep)
    (l : List Char) (ls : List (List Char)) (h : splitChars sep cs = l :: ls) :
    splitChars sep (c :: cs) = (c :: l) :: ls := by
  simp [splitChars, h, hc]

theorem string_length_mk (l : List Char) : (String.mk l).length = l.length := rfl

/-- Total size processed by the chunk loop: splitting re-terminates every
line, so the sizes of the pieces sum to the content length plus one. -/
theorem splitChars_sizes (sep : Char) (cs : List Char) :
    ((splitChars sep cs).map (fun p => p.length + 1)).sum = cs.length + 1 := by
  induction cs with
  | nil => simp [splitChars]
  | cons c cs ih =>
    obtain ⟨l, ls, h⟩ := List.exists_cons_of_ne_nil (splitChars_ne_nil sep cs)
    rw [h] at ih
    by_cases hc : c = sep
    · subst hc
      rw [splitChars_cons_of_eq c cs l ls h]
      simp only [List.map_cons, List.sum_cons, List.length_cons, List.length_nil] at ih ⊢
      omega
    · rw [splitChars_cons_of_ne sep c cs hc l ls h]
      simp only [List.map_cons, List.sum_cons, List.length_cons] at ih ⊢
      omega

theorem sizeSum_splitLines (s : String) : sizeSum (splitLines s) = s.length + 1 := by
  have h := splitChars_sizes '\n' s.data
  simp only [sizeSum, splitLines, List.map_map]
  have heq : ((fun l : String => l.length + 1) ∘ String.mk) =
      (fun p : List Char => p.length + 1) := by
    funext p
    simp [string_length_mk]
  rw [heq, h]
  rfl

theorem sizeSum_join (L : List (List String)) :
    sizeSum L.flatten = (L.map sizeSum).sum := by
  induction L with
  | nil => simp [sizeSum]
  | cons a L ih => simp [List.flatten, sizeSum_append, ih]

/-- The emitted chunks' line buffers concatenate back to the input lines. -/
theorem chunkLoop_join (fp : String) (rest : List String) :
    ∀ cid cur csize off,
      ((chunkLoop fp rest cid cur csize off).map (fun c => c.src_lines)).flatten =
        cur ++ rest := by
  induction rest with
  | nil =>
    intro cid cur csize off
    by_cases h : cur = [] <;>
      simp [chunkLoop, h, mkChunk_src_lines]
  | cons line rest ih =>
    intro cid cur csize off
    by_cases hc : CHUNK_SIZE < csize + (line.length + 1) ∧ cur ≠ []
    · simp only [chunkLoop, if_pos hc, List.map_cons, List.flatten_cons, mkChunk_src_lines,
        ih (cid + 1) [line] (line.length + 1) (off + cur.length)]
      simp
    · simp only [chunkLoop, if_neg hc,
        ih cid (cur ++ [line]) (csize + (line.length + 1)) off]
      simp

theorem chunk_code_join (fp code : String) :
    ((chunk_code fp code).map (fun c => c.src_lines)).flatten = splitLines code := by
  simpa using chunkLoop_join fp (splitLines code) 1 [] 0 1

theorem chunk_code_bytes_total (fp code : String) :
    ((chunk_code fp code).map chunkBytes).sum = code.length + 1 := by
  have h1 : (chunk_code fp code).map chunkBytes =
      ((chunk_code fp code).map (fun c => c.src_lines)).map sizeSum := by
    simp [chunkBytes, List.map_map, Function.comp]
  rw [h1, ← sizeSum_join, chunk_code_join, sizeSum_splitLines]

/-- A line of `n` letters. -/
def aLine (n : Nat) : List Char := List.replicate n 'a'

def lineA (n : Nat) : String := String.mk (aLine n)

/-- A 25,000-character file of five lines with character counts
6099, 6099, 6099, 6099, 600 (so sizes 6100, 6100, 6100, 6100, 601 once each
line is re-terminated): each of the first four lines alone overflows the
12,000-byte budget when a second one is added, so greedy packing emits four
chunks, not three. -/
def code3 : String :=
  String.mk (aLine 6099 ++ '\n' :: (aLine 6099 ++ '\n' :: (aLine 6099 ++ '\n' ::
    (aLine 6099 ++ '\n' :: aLine 600))))

theorem splitChars_replicate_append (n : Nat) (cs : List Char) :
    splitChars '\n' (aLine n ++ cs) =
      ((aLine n ++ ((splitChars '\n' cs).headD [])) :: (splitChars '\n' cs).tail) := by
  induction n with
  | zero =>
    obtain ⟨l, ls, h⟩ := List.exists_cons_of_ne_nil (splitChars_ne_nil '\n' cs)
    simp [aLine, h]
  | succ n ih =>
    have hrep : aLine (n + 1) = 'a' :: aLine n := List.replicate_succ 'a' n
    have hne : ¬ ('a' : Char) = '\n' := by decide
    have h := splitChars_cons_of_ne '\n' 'a' (aLine n ++ cs) hne
      (aLine n ++ ((splitChars '\n' cs).headD [])) ((splitChars '\n' cs).tail) ih
    rw [hrep, List.cons_append, h]
    simp

theorem splitChars_line_append (n : Nat) (cs : List Char) :
    splitChars '\n' (aLine n ++ '\n' :: cs) = aLine n :: splitChars '\n' cs := by
  obtain ⟨l, ls, h⟩ := List.exists_cons_of_ne_nil (splitChars_ne_nil '\n' cs)
  rw [splitChars_replicate_append, splitChars_cons_of_eq '\n' cs l ls h, h]
  simp

theorem splitChars_line_term (n : Nat) :
    splitChars '\n' (aLine n) = [aLine n] := by
  have h : splitChars '\n' ([] : List Char) = [[]] := rfl
  have := splitChars_replicate_append n []
  rw [h] at this
  simpa using this

theorem lineA_length (n : Nat) : (lineA n).length = n := by
  simp [lineA, aLine, string_length_mk]

theorem splitLines_code3 :
    splitLines code3 =
      [lineA 6099, lineA 6099, lineA 6099, lineA 6099, lineA 600] := by
  have hdata : code3.data = aLine 6099 ++ '\n' :: (aLine 6099 ++ '\n' ::
      (aLine 6099 ++ '\n' :: (aLine 6099 ++ '\n' :: aLine 600))) := rfl
  rw [splitLines, hdata, splitChars_line_append, splitChars_line_append,
    splitChars_line_append, splitChars_line_append, splitChars_line_term]
  rfl

theorem code3_length : code3.length = 25000 := by
  have : code3.length = (aLine 6099 ++ '\n' :: (aLine 6099 ++ '\n' ::
      (aLine 6099 ++ '\n' :: (aLine 6099 ++ '\n' :: aLine 600)))).length := rfl
  rw [this]
  simp only [aLine, List.length_append, List.length_cons, List.length_replicate]

theorem code3_lines_le : ∀ l ∈ splitLines code3, l.length ≤ 12000 := by
  rw [splitLines_code3]
  intro l hl
  simp only [List.mem_cons, List.not_mem_nil, or_false] at hl
  rcases hl with h | h | h | h | h <;> subst h <;> rw [lineA_length] <;> omega

theorem chunk_code_code3_length : (chunk_code "f.py" code3).length = 4 := by
  rw [chunk_code, splitLines_code3]
  simp [chunkLoop, lineA_length, CHUNK_SIZE]

/-- C3 counterexample: a single 25,000-character file in which no line
exceeds 12,000 characters, yet `chunk_code` (with `CHUNK_SIZE = 12000`)
produces 4 chunks, not 3: five lines of sizes 6100, 6100, 6100, 6100, 601
pack greedily as 6100 / 6100 / 6100 / 6701. -/
theorem chunk_code_25000_not_exactly_three :
    code3.length = 25000 ∧
      (∀ l ∈ splitLines code3, l.length ≤ 12000) ∧
      (chunk_code "f.py" code3).length = 4 ∧
      (chunk_code "f.py" code3).length ≠ 3 := by
  refine ⟨code3_length, code3_lines_le, chunk_code_code3_length, ?_⟩
  rw [chunk_code_code3_length]
  omega

/-- C3 amended: a single file of 25,000 characters with no individual line
exceeding 12,000 characters produces at least 3 chunks (not exactly 3 —
greedy packing may produce more), and their line ranges are contiguous,
non-overlapping, and together cover exactly the file's line count. -/
theorem chunk_code_25000_at_least_three (fp code : String)
    (hlen : code.length = 25000)
    (hlines : ∀ l ∈ splitLines code, l.length ≤ 12000) :
    3 ≤ (chunk_code fp code).length ∧
      chainFrom (chunk_code fp code) 1 ((splitLines code).length + 1) := by
  refine ⟨?_, chunk_code_chain fp code⟩
  have htotal : ((chunk_code fp code).map chunkBytes).sum = 25001 := by
    rw [chunk_code_bytes_total, hlen]
  have hbound : ∀ b ∈ (chunk_code fp code).map chunkBytes, b ≤ 12001 := by
    intro b hb
    obtain ⟨c, hc, rfl⟩ := List.mem_map.mp hb
    rcases chunk_code_sizes fp code c hc with h | h
    · have : CHUNK_SIZE ≤ 12001 := by norm_num [CHUNK_SIZE]
      omega
    · obtain ⟨a, ha⟩ := List.length_eq_one.mp h
      have hmem : a ∈ splitLines code := by
        rw [← chunk_code_join fp code]
        exact List.mem_flatten.mpr
          ⟨c.src_lines, List.mem_map_of_mem _ hc, by rw [ha]; simp⟩
      have hla := hlines a hmem
      rw [chunkBytes, ha, sizeSum_singleton]
      omega
  have hsum_le := List.sum_le_card_nsmul ((chunk_code fp code).map chunkBytes) 12001 hbound
  rw [smul_eq_mul, List.length_map] at hsum_le
  by_contra hlt
  push_neg at hlt
  have h2 : (chunk_code fp code).length ≤ 2 := by omega
  have : (chunk_code fp code).length * 12001 ≤ 2 * 12001 :=
    Nat.mul_le_mul_right _ h2
  omega

theorem chunk_code_25000_at_least_three_witness :
    3 ≤ (chunk_code "f.py" code3).length ∧
      chainFrom (chunk_code "f.py" code3) 1 ((splitLines code3).length + 1) :=
  chunk_code_25000_at_least_three "f.py" code3 code3_length code3_lines_le

/-- SOURCE_EXTENSIONS from pipeline_utils.py lines 6-9. -/
def SOURCE_EXTENSIONS : List String :=
  [".py", ".js", ".jsx", ".ts", ".tsx", ".java", ".go",
   ".c", ".cpp", ".cc", ".cxx", ".h", ".hpp", ".rs",
   ".rb", ".php", ".swift", ".kt", ".scala", ".cs", ".sh",
   ".bash", ".zsh", ".fish", ".ps1", ".bat", ".cmd"]

/-- EXCLUDED_DIRS from pipeline_utils.py lines 11-16. -/
def EXCLUDED_DIRS : List String :=
  [".git", ".venv", "venv", "node_modules", "dist", "build",
   "__pycache__", ".pytest_cache", ".idea", ".vscode", "target",
   "bin", "obj", ".gradle", ".mvn", "vendor", "bower_components",
   ".next", ".nuxt", "coverage", ".nyc_output", "out", "lib",
   "assets", "images", "img", "pictures", "pics", "media",
   "docs", "documentation", ".github", ".gitlab"]

/-- EXCLUDED_EXTENSIONS from pipeline_utils.py lines 18-41. -/
def EXCLUDED_EXTENSIONS : List String :=
  [".png", ".jpg", ".jpeg", ".gif", ".svg", ".ico", ".bmp", ".tiff", ".tif",
   ".webp", ".heic", ".heif", ".psd", ".ai", ".eps", ".raw", ".cr2", ".nef",
   ".pdf", ".doc", ".docx", ".xls", ".xlsx", ".ppt", ".pptx", ".odt", ".ods",
   ".zip", ".tar", ".gz", ".bz2", ".xz", ".7z", ".rar", ".tar.gz", ".tar.bz2",
   ".mp3", ".mp4", ".avi", ".mov", ".wmv", ".flv", ".webm", ".mkv", ".m4v",
   ".wav", ".flac", ".aac", ".ogg", ".wma",
   ".json", ".yaml", ".yml", ".toml", ".ini", ".cfg", ".conf", ".xml",
   ".css", ".scss", ".sass", ".less", ".html", ".htm", ".xhtml",
   ".lock", ".log", ".cache",
   ".md", ".txt", ".rtf", ".csv", ".tsv",
   ".db", ".sqlite", ".sqlite3", ".mdb", ".accdb",
   ".exe", ".dll", ".so", ".dylib", ".a", ".lib",
   ".woff", ".woff2", ".ttf", ".eot", ".otf",
   ".map"]

/-- EXCLUDED_FILES from pipeline_utils.py lines 43-71. -/
def EXCLUDED_FILES : List String :=
  ["package.json", "package-lock.json", "yarn.lock", "pnpm-lock.yaml",
   "requirements.txt", "requirements-dev.txt", "Pipfile", "Pipfile.lock",
   "poetry.lock", "setup.py", "setup.cfg", "pyproject.toml",
   "composer.json", "composer.lock", "Gemfile", "Gemfile.lock",
   "go.mod", "go.sum", "Cargo.toml", "Cargo.lock",
   "pom.xml", "build.gradle", "build.gradle.kts", "gradle.properties",
   "package.xml", "bower.json", ".bowerrc",
   ".gitignore", ".gitattributes", ".gitmodules", ".gitkeep",
   ".env", ".env.local", ".env.development", ".env.production",
   ".dockerignore", "Dockerfile", "docker-compose.yml", "docker-compose.yaml",
   ".editorconfig", ".prettierrc", ".prettierignore", ".eslintrc", ".eslintignore",
   "tsconfig.json", "jsconfig.json", "webpack.config.js", "vite.config.js",
   "rollup.config.js", ".babelrc", "babel.config.js",
   "jest.config.js", "jest.config.ts", ".nycrc",
   "karma.conf.js", "protractor.conf.js",
   ".travis.yml", ".circleci", "appveyor.yml", "azure-pipelines.yml",
   "Makefile", "CMakeLists.txt", "configure", "configure.ac",
   "README.md", "README.txt", "README.rst", "CHANGELOG.md", "LICENSE",
   "CONTRIBUTING.md", "CONTRIBUTORS.md", "AUTHORS", "HISTORY.md",
   ".vscode", ".idea", ".settings", ".project", ".classpath",
   ".DS_Store", "Thumbs.db", "desktop.ini",
   "favicon.ico", "robots.txt", "sitemap.xml"]

/-- Python `s.lower()` for the ASCII strings compared here. -/
def lowerStr (s : String) : String :=
  String.mk (s.data.map Char.toLower)

/-- Index of the last occurrence of a dot in a character list: Python
`name.rfind('.')`, with `none` for "not found". -/
def lastDotIdx : List Char → Option Nat
  | [] => none
  | c :: cs =>
    match lastDotIdx cs with
    | some i => some (i + 1)
    | none => if c = '.' then some 0 else none

/-- Python `pathlib.PurePath.suffix` of a file name: the part of the name
from its last dot on, empty when the last dot is the first character, the
last character, or absent. -/
def suffixOf (name : String) : String :=
  match lastDotIdx name.data with
  | none => ""
  | some i =>
    if 0 < i ∧ i + 1 < name.data.length then String.mk (name.data.drop i) else ""

/-- Python `part.startswith('.') and part != '.' and part != '..'`
(pipeline_utils.py line 188). -/
def isHiddenPart (p : String) : Bool :=
  (match p.data with
   | c :: _ => c = '.'
   | [] => false) && !(p = ".") && !(p = "..")

/-- The `for part in path_obj.parts` loop of `should_exclude_path`
(pipeline_utils.py lines 186-198).  `some b` models `return b`; `none` means
the loop finished without returning.  The `continue` for a hidden final path
component with a source-code extension skips that part's excluded-directory
test, exactly as in the source. -/
def loopParts : List String → String → String → Option Bool
  | [], _, _ => none
  | p :: rest, name, sfx =>
    if isHiddenPart p then
      if p = name ∧ sfx ≠ "" then
        if lowerStr sfx ∈ SOURCE_EXTENSIONS then
          loopParts rest name sfx
        else if lowerStr p ∈ EXCLUDED_DIRS then some true
        else loopParts rest name sfx
      else some true
    else if lowerStr p ∈ EXCLUDED_DIRS then some true
    else loopParts rest name sfx

/-- Function should_exclude_path from pipeline_utils.py lines 169-232, on the
components of a relative path (Python `path_obj.parts`); `name` is the final
component and `sfx` its pathlib suffix. -/
def should_exclude_path (parts : List String) : Bool :=
  let name := parts.getLastD ""
  let sfx := suffixOf name
  match loopParts parts name sfx with
  | some b => b
  | none =>
    if sfx ≠ "" ∨ name ≠ "" then
      let file_ext := lowerStr sfx
      if lowerStr name ∈ EXCLUDED_FILES.map lowerStr then true
      else if file_ext ≠ "" ∧ file_ext ∈ EXCLUDED_EXTENSIONS then true
      else if file_ext = "" then true
      else if ¬ file_ext ∈ SOURCE_EXTENSIONS then true
      else false
    else false

theorem lastDotIdx_get : ∀ (l : List Char) (i : Nat), lastDotIdx l = some i →
    l[i]? = some '.' := by
  intro l
  induction l with
  | nil => intro i h; simp [lastDotIdx] at h
  | cons c cs ih =>
    intro i h
    simp only [lastDotIdx] at h
    cases hcs : lastDotIdx cs with
    | some j =>
      rw [hcs] at h
      simp only [Option.some.injEq] at h
      subst h
      simpa using ih j hcs
    | none =>
      rw [hcs] at h
      by_cases hc : c = '.'
      · rw [if_pos hc] at h
        simp only [Option.some.injEq] at h
        subst h
        simp [hc]
      · rw [if_neg hc] at h
        exact absurd h (by simp)

theorem suffixOf_ne_empty_dot (name : String) (h : suffixOf name ≠ "") :
    ∃ i, 0 < i ∧ name.data[i]? = some '.' := by
  unfold suffixOf at h
  split at h
  · exact absurd rfl h
  · rename_i i hd
    split at h
    · rename_i hc
      exact ⟨i, hc.1, lastDotIdx_get _ i hd⟩
    · exact absurd rfl h

theorem lowerStr_dot (p : String) (i : Nat) (h : p.data[i]? = some '.') :
    (lowerStr p).data[i]? = some '.' := by
  have hmap : (lowerStr p).data = p.data.map Char.toLower := rfl
  rw [hmap, List.getElem?_map, h]
  rfl

theorem excluded_dirs_no_inner_dot :
    ∀ d ∈ EXCLUDED_DIRS, ∀ c ∈ d.data.drop 1, ¬ c = '.' := by decide

theorem excluded_dirs_dot_free (d : String) (hd : d ∈ EXCLUDED_DIRS) (i : Nat)
    (hi : 0 < i) : d.data[i]? ≠ some '.' := by
  intro h
  have h1 : (d.data.drop 1)[i - 1]? = some '.' := by
    rw [List.getElem?_drop]
    have : 1 + (i - 1) = i := by omega
    rw [this, h]
  exact excluded_dirs_no_inner_dot d hd '.' (List.getElem?_mem h1) rfl

/-- A path component that case-insensitively equals a configured excluded
directory name cannot be a final component with a non-empty pathlib suffix:
excluded-directory names have no inner dot. -/
theorem excluded_dir_no_suffix (p : String) (hp : lowerStr p ∈ EXCLUDED_DIRS)
    (h : suffixOf p ≠ "") : False := by
  obtain ⟨i, hi, hdot⟩ := suffixOf_ne_empty_dot p h
  exact excluded_dirs_dot_free (lowerStr p) hp i hi (lowerStr_dot p i hdot)

theorem loopParts_dir_hit (name : String) :
    ∀ parts, (∃ p ∈ parts, lowerStr p ∈ EXCLUDED_DIRS) →
      loopParts parts name (suffixOf name) = some true := by
  intro parts
  induction parts with
  | nil => intro h; simp at h
  | cons p rest ih =>
    intro h
    by_cases hdir : lowerStr p ∈ EXCLUDED_DIRS
    · by_cases hhid : isHiddenPart p = true
      · by_cases hns : p = name ∧ suffixOf name ≠ ""
        · exact absurd (hns.1 ▸ hns.2) (fun hc => excluded_dir_no_suffix p hdir hc)
        · simp [loopParts, hhid, hns]
      · simp [loopParts, hhid, hdir]
    · have hrest : ∃ q ∈ rest, lowerStr q ∈ EXCLUDED_DIRS := by
        rcases h with ⟨q, hq, hqd⟩
        rcases List.mem_cons.mp hq with rfl | hq
        · exact absurd hqd hdir
        · exact ⟨q, hq, hqd⟩
      by_cases hhid : isHiddenPart p = true
      · by_cases hns : p = name ∧ suffixOf name ≠ ""
        · by_cases hsrc : lowerStr (suffixOf name) ∈ SOURCE_EXTENSIONS
          · simp only [loopParts, if_pos hhid, if_pos hns, if_pos hsrc]
            exact ih hrest
          · simp only [loopParts, if_pos hhid, if_pos hns, if_neg hsrc, if_neg hdir]
            exact ih hrest
        · simp [loopParts, hhid, hns]
      · simp only [loopParts, Bool.not_eq_true] at hhid
        simp only [loopParts, hhid, Bool.false_eq_true, if_false, if_neg hdir]
        exact ih hrest

/-- C8: any relative path one of whose components matches a configured
excluded-directory name case-insensitively is excluded, regardless of the
file's base name or extension: the directory test returns before the
filename and extension checks are reached. -/
theorem should_exclude_path_dir_segment (parts : List String)
    (h : ∃ p ∈ parts, lowerStr p ∈ EXCLUDED_DIRS) :
    should_exclude_path parts = true := by
  simp only [should_exclude_path, loopParts_dir_hit (parts.getLastD "") parts h]

theorem should_exclude_path_dir_segment_witness :
    should_exclude_path ["node_modules", "server.py"] = true :=
  should_exclude_path_dir_segment ["node_modules", "server.py"]
    ⟨"node_modules", by decide⟩

/-- One regular file under the repository root, as the extraction walk sees
it: its path components relative to the root, its decoded text content
(`errors='ignore'` decoding never raises, so content is always available when
the read succeeds), and whether opening/reading it succeeds (`readable =
false` models a per-file read error, caught at pipeline_utils.py lines
284-289). -/
structure FSFile where
  parts : List String
  content : String
  readable : Bool
deriving DecidableEq

/-- The filesystem as `extract_source_code` observes it: whether the root
path exists, and the regular files under it in walk order. -/
structure FileSystem where
  root_exists : Bool
  files : List FSFile
deriving DecidableEq

/-- The binary-content heuristic of pipeline_utils.py line 276: drop the file
when its content contains a NUL character, or when more than 30% of its first
1024 characters are control characters other than tab/newline/carriage
return.  (The source compares against the float `0.3`; the claims checked
here do not depend on the threshold, which is modelled exactly as 3/10.) -/
def isBinaryContent (content : String) : Bool :=
  let head := content.data.take 1024
  content.data.contains (Char.ofNat 0) ||
    decide (3 * head.length <
      10 * (head.filter (fun c => c.toNat < 32 && !(c = '\n') && !(c = '\r') && !(c = '\t'))).length)

/-- Per-file processing in the `extract_source_code` walk (pipeline_utils.py
lines 255-289): skip excluded paths, skip files whose extension is not a
source extension, skip files whose read raises, skip binary-looking content;
otherwise record `relative_path -> content`. -/
def extractFile (f : FSFile) : Option (List String × String) :=
  if should_exclude_path f.parts then none
  else if ¬ lowerStr (suffixOf (f.parts.getLastD "")) ∈ SOURCE_EXTENSIONS then none
  else if f.readable = false then none
  else if isBinaryContent f.content then none
  else some (f.parts, f.content)

/-- Function extract_source_code from pipeline_utils.py lines 235-292: raises
(`ValueError`, the NotFound error of the spec) exactly when the root path
does not exist, otherwise walks all regular files and keeps the readable,
included, non-binary ones. -/
def extract_source_code (fs : FileSystem) : Except String (List (List String × String)) :=
  if fs.root_exists = false then
    Except.error "Repository path does not exist"
  else
    Except.ok (fs.files.filterMap extractFile)

/-- C7: `extract_source_code` fails with its NotFound error if and only if
the root path does not exist; and a per-file read error never fails the
extraction — every other readable, included, non-binary file is still
returned. -/
theorem extract_source_code_error_iff (fs : FileSystem) :
    ((∃ msg, extract_source_code fs = Except.error msg) ↔ fs.root_exists = false) ∧
      (∀ f ∈ fs.files, fs.root_exists = true →
        should_exclude_path f.parts = false →
        lowerStr (suffixOf (f.parts.getLastD "")) ∈ SOURCE_EXTENSIONS →
        f.readable = true →
        isBinaryContent f.content = false →
        extract_source_code fs = Except.ok (fs.files.filterMap extractFile) ∧
          (f.parts, f.content) ∈ fs.files.filterMap extractFile) := by
  constructor
  · constructor
    · intro ⟨msg, hmsg⟩
      by_contra hroot
      simp only [Bool.not_eq_false] at hroot
      rw [extract_source_code, hroot] at hmsg
      simp at hmsg
    · intro hroot
      exact ⟨"Repository path does not exist", by rw [extract_source_code, hroot]; rfl⟩
  · intro f hf hroot hexcl hsrc hread hbin
    have hok : extract_source_code fs = Except.ok (fs.files.filterMap extractFile) := by
      rw [extract_source_code, hroot]
      rfl
    refine ⟨hok, ?_⟩
    refine List.mem_filterMap.mpr ⟨f, hf, ?_⟩
    rw [extractFile, if_neg (by simp [hexcl]), if_neg (by simpa using hsrc),
      if_neg (by simp [hread]), if_neg (by simp [hbin])]

/-- A two-file filesystem in which one file's read fails. -/
def fsW : FileSystem :=
  { root_exists := true
    files :=
      [{ parts := ["src", "broken.py"], content := "", readable := false },
       { parts := ["src", "main.py"], content := "print(1)", readable := true }] }

theorem extract_source_code_error_iff_witness :
    ((∃ msg, extract_source_code fsW = Except.error msg) ↔ fsW.root_exists = false) ∧
      (extract_source_code fsW = Except.ok (fsW.files.filterMap extractFile) ∧
        (["src", "main.py"], "print(1)") ∈ fsW.files.filterMap extractFile) :=
  ⟨(extract_source_code_error_iff fsW).1,
    (extract_source_code_error_iff fsW).2
      { parts := ["src", "main.py"], content := "print(1)", readable := true }
      (by decide) rfl (by decide) (by decide) rfl (by decide)⟩

/-- Model Vulnerability from schemas.py lines 27-39. -/
structure Vulnerability where
  vulnerability_type : String
  severity : String
  file_path : String
  start_line : Nat
  end_line : Nat
  description : String
  code_snippet : String
  recommendation : String
  cwe_id : Option String
  owasp_category : Option String
  vibe_coder_explanation : Option String
deriving DecidableEq

/-- Model VulnerabilityScanResult from schemas.py lines 41-47. -/
structure VulnerabilityScanResult where
  chunk_id : Nat
  file_path : String
  vulnerabilities : List Vulnerability
  scan_status : String
  error_message : Option String
deriving DecidableEq

/-- The five canonical severity labels counted by the aggregation code. -/
def severityLabels : List String :=
  ["Critical", "High", "Medium", "Low", "Info"]

/-- Python `sum(1 for v in vs if v.severity == sev)`
(mongo_utils.py lines 130-134, pipeline.py lines 88-107). -/
def countSeverity (vs : List Vulnerability) (sev : String) : Nat :=
  (vs.filter (fun v => v.severity == sev)).length

/-- Model VulnerabilityReport from schemas.py lines 53-68 (datetimes as `Nat`). -/
structure VulnerabilityReport where
  user_id : String
  github_id : String
  repo_id : String
  repo_name : String
  total_vulnerabilities : Nat
  critical_count : Nat
  high_count : Nat
  medium_count : Nat
  low_count : Nat
  info_count : Nat
  scan_results : List VulnerabilityScanResult
  scan_completed_at : Nat
  created_at : Nat
  updated_at : Nat
deriving DecidableEq

/-- Building the report value in `save_vulnerability_report`
(mongo_utils.py lines 126-154): flatten all findings, count each canonical
severity, total = number of flattened findings. -/
def buildVulnerabilityReport (uid gid rid rname : String)
    (scan_results : List VulnerabilityScanResult) (now : Nat) : VulnerabilityReport :=
  let all_vulnerabilities := (scan_results.map (fun r => r.vulnerabilities)).flatten
  { user_id := uid
    github_id := gid
    repo_id := rid
    repo_name := rname
    total_vulnerabilities := all_vulnerabilities.length
    critical_count := countSeverity all_vulnerabilities "Critical"
    high_count := countSeverity all_vulnerabilities "High"
    medium_count := countSeverity all_vulnerabilities "Medium"
    low_count := countSeverity all_vulnerabilities "Low"
    info_count := countSeverity all_vulnerabilities "Info"
    scan_results := scan_results
    scan_completed_at := now
    created_at := now
    updated_at := now }

/-- The `severity_breakdown` dict built in `run_pipeline`
(pipeline.py lines 87-108). -/
structure SeverityBreakdown where
  critical : Nat
  high : Nat
  medium : Nat
  low : Nat
  info : Nat
deriving DecidableEq

/-- The `vulnerability_report` dict built in `run_pipeline`
(pipeline.py lines 110-114). -/
structure PipelineVulnReport where
  total_vulnerabilities : Nat
  severity_breakdown : SeverityBreakdown
  scan_results : List VulnerabilityScanResult
deriving DecidableEq

/-- Aggregation in `run_pipeline` (pipeline.py lines 86-114):
`total_vulns = sum(len(result.vulnerabilities))`, and each severity counted
over the nested comprehension, i.e. over the flattened findings. -/
def mkPipelineVulnReport (scan_results : List VulnerabilityScanResult) : PipelineVulnReport :=
  let flat := (scan_results.map (fun r => r.vulnerabilities)).flatten
  { total_vulnerabilities := (scan_results.map (fun r => r.vulnerabilities.length)).sum
    severity_breakdown :=
      { critical := countSeverity flat "Critical"
        high := countSeverity flat "High"
        medium := countSeverity flat "Medium"
        low := countSeverity flat "Low"
        info := countSeverity flat "Info" }
    scan_results := scan_results }

theorem countSeverity_nil (sev : String) : countSeverity [] sev = 0 := rfl

theorem countSeverity_cons_self (v : Vulnerability) (vs : List Vulnerability)
    (sev : String) (h : v.severity = sev) :
    countSeverity (v :: vs) sev = countSeverity vs sev + 1 := by
  simp [countSeverity, List.filter_cons, h]

theorem countSeverity_cons_ne (v : Vulnerability) (vs : List Vulnerability)
    (sev : String) (h : ¬ v.severity = sev) :
    countSeverity (v :: vs) sev = countSeverity vs sev := by
  simp [countSeverity, List.filter_cons, h]

/-- When every finding carries one of the five canonical severities, the five
counts partition the findings. -/
theorem countSeverity_partition (vs : List Vulnerability)
    (h : ∀ v ∈ vs, v.severity ∈ severityLabels) :
    countSeverity vs "Critical" + countSeverity vs "High" + countSeverity vs "Medium" +
      countSeverity vs "Low" + countSeverity vs "Info" = vs.length := by
  induction vs with
  | nil => simp [countSeverity_nil]
  | cons v vs ih =>
    have hv := h v (List.mem_cons_self v vs)
    have hrest := ih (fun w hw => h w (List.mem_cons_of_mem v hw))
    simp only [severityLabels, List.mem_cons, List.not_mem_nil, or_false] at hv
    rcases hv with hv | hv | hv | hv | hv
    · rw [countSeverity_cons_self v vs "Critical" hv,
        countSeverity_cons_ne v vs "High" (by rw [hv]; decide),
        countSeverity_cons_ne v vs "Medium" (by rw [hv]; decide),
        countSeverity_cons_ne v vs "Low" (by rw [hv]; decide),
        countSeverity_cons_ne v vs "Info" (by rw [hv]; decide), List.length_cons]
      omega
    · rw [countSeverity_cons_self v vs "High" hv,
        countSeverity_cons_ne v vs "Critical" (by rw [hv]; decide),
        countSeverity_cons_ne v vs "Medium" (by rw [hv]; decide),
        countSeverity_cons_ne v vs "Low" (by rw [hv]; decide),
        countSeverity_cons_ne v vs "Info" (by rw [hv]; decide), List.length_cons]
      omega
    · rw [countSeverity_cons_self v vs "Medium" hv,
        countSeverity_cons_ne v vs "Critical" (by rw [hv]; decide),
        countSeverity_cons_ne v vs "High" (by rw [hv]; decide),
        countSeverity_cons_ne v vs "Low" (by rw [hv]; decide),
        countSeverity_cons_ne v vs "Info" (by rw [hv]; decide), List.length_cons]
      omega
    · rw [countSeverity_cons_self v vs "Low" hv,
        countSeverity_cons_ne v vs "Critical" (by rw [hv]; decide),
        countSeverity_cons_ne v vs "High" (by rw [hv]; decide),
        countSeverity_cons_ne v vs "Medium" (by rw [hv]; decide),
        countSeverity_cons_ne v vs "Info" (by rw [hv]; decide), List.length_cons]
      omega
    · rw [countSeverity_cons_self v vs "Info" hv,
        countSeverity_cons_ne v vs "Critical" (by rw [hv]; decide),
        countSeverity_cons_ne v vs "High" (by rw [hv]; decide),
        countSeverity_cons_ne v vs "Medium" (by rw [hv]; decide),
        countSeverity_cons_ne v vs "Low" (by rw [hv]; decide), List.length_cons]
      omega

/-- C4: in every aggregated report — both the persisted
`VulnerabilityReport` of mongo_utils.py and the in-memory report dict of
pipeline.py — the five per-severity counts (zero when a severity has no
findings) sum exactly to `total_vulnerabilities`, the number of findings
flattened across all scan results. -/
theorem report_severity_counts_sum (uid gid rid rname : String)
    (srs : List VulnerabilityScanResult) (now : Nat)
    (h : ∀ r ∈ srs, ∀ v ∈ r.vulnerabilities, v.severity ∈ severityLabels) :
    ((buildVulnerabilityReport uid gid rid rname srs now).critical_count +
      (buildVulnerabilityReport uid gid rid rname srs now).high_count +
      (buildVulnerabilityReport uid gid rid rname srs now).medium_count +
      (buildVulnerabilityReport uid gid rid rname srs now).low_count +
      (buildVulnerabilityReport uid gid rid rname srs now).info_count =
      (buildVulnerabilityReport uid gid rid rname srs now).total_vulnerabilities) ∧
    ((mkPipelineVulnReport srs).severity_breakdown.critical +
      (mkPipelineVulnReport srs).severity_breakdown.high +
      (mkPipelineVulnReport srs).severity_breakdown.medium +
      (mkPipelineVulnReport srs).severity_breakdown.low +
      (mkPipelineVulnReport srs).severity_breakdown.info =
      (mkPipelineVulnReport srs).total_vulnerabilities) := by
  have hflat : ∀ v ∈ (srs.map (fun r => r.vulnerabilities)).flatten,
      v.severity ∈ severityLabels := by
    intro v hv
    obtain ⟨l, hl, hvl⟩ := List.mem_flatten.mp hv
    obtain ⟨r, hr, rfl⟩ := List.mem_map.mp hl
    exact h r hr v hvl
  have hcount := countSeverity_partition _ hflat
  constructor
  · exact hcount
  · have hlen : ((srs.map (fun r => r.vulnerabilities)).flatten).length =
        (srs.map (fun r => r.vulnerabilities.length)).sum := by
      rw [List.length_flatten, List.map_map]
      rfl
    simpa [mkPipelineVulnReport, hlen] using hcount

/-- One completed scan result with one High finding. -/
def scanW : VulnerabilityScanResult :=
  { chunk_id := 1
    file_path := "src/main.py"
    vulnerabilities :=
      [{ vulnerability_type := "SQL Injection"
         severity := "High"
         file_path := "src/main.py"
         start_line := 1
         end_line := 2
         description := "d"
         code_snippet := "s"
         recommendation := "r"
         cwe_id := none
         owasp_category := none
         vibe_coder_explanation := none }]
    scan_status := "completed"
    error_message := none }

theorem report_severity_counts_sum_witness :
    ((buildVulnerabilityReport "u" "g" "r" "n" [scanW] 0).critical_count +
      (buildVulnerabilityReport "u" "g" "r" "n" [scanW] 0).high_count +
      (buildVulnerabilityReport "u" "g" "r" "n" [scanW] 0).medium_count +
      (buildVulnerabilityReport "u" "g" "r" "n" [scanW] 0).low_count +
      (buildVulnerabilityReport "u" "g" "r" "n" [scanW] 0).info_count =
      (buildVulnerabilityReport "u" "g" "r" "n" [scanW] 0).total_vulnerabilities) ∧
    ((mkPipelineVulnReport [scanW]).severity_breakdown.critical +
      (mkPipelineVulnReport [scanW]).severity_breakdown.high +
      (mkPipelineVulnReport [scanW]).severity_breakdown.medium +
      (mkPipelineVulnReport [scanW]).severity_breakdown.low +
      (mkPipelineVulnReport [scanW]).severity_breakdown.info =
      (mkPipelineVulnReport [scanW]).total_vulnerabilities) :=
  report_severity_counts_sum "u" "g" "r" "n" [scanW] 0 (by decide)

/-- The outcomes of the effectful collaborators over one `run_pipeline`
invocation (pipeline.py lines 11-151): whether the clone directory already
exists at run start, whether `clone_repository` succeeds, whether
`process_repository` (extract + chunk) returns or raises, whether each
MongoDB save succeeds, and whether `analyze_repository` returns or raises
(with its scan results when it returns). -/
structure PipelineEnv where
  preexisting : Bool
  clone_ok : Bool
  clone_message : String
  process_ok : Bool
  process_chunks : List Chunk
  process_error : String
  save_ok : Bool
  analysis_ok : Bool
  scan_results : List VulnerabilityScanResult
  save_report_ok : Bool
deriving DecidableEq

/-- The dict returned by `run_pipeline`; the failure dicts carry no
`repo_path`/`total_chunks` keys, modelled as `none`. -/
structure RunResult where
  success : Bool
  message : String
  repo_path : Option String
  total_chunks : Option Nat
  chunks : List Chunk
  vulnerability_report : Option PipelineVulnReport
deriving DecidableEq

/-- What the `finally` block did: whether cleanup was reached with a
directory to delete, and whether the clone directory is gone afterwards
(`shutil.rmtree` modelled as removing it). -/
structure RunTrace where
  cleanup_ran : Bool
  dir_removed : Bool
deriving DecidableEq

/-- Function run_pipeline from pipeline.py lines 11-151.  When the directory does
not pre-exist and the clone fails, the function returns before entering the
`try`, so the `finally` cleanup never runs.  Otherwise the body runs under
`try/finally`: a `process_repository` failure is caught at line 138 and
produces a failure dict; a save failure (line 73) is swallowed; an
`analyze_repository` failure (line 127) is swallowed leaving
`vulnerability_report = None`; a `save_vulnerability_report` failure (line
125) is swallowed after the report dict was already built; and the `finally`
(lines 145-151) removes the existing clone directory on every one of those
paths. -/
def run_pipeline (repo_name : String) (env : PipelineEnv) : RunResult × RunTrace :=
  if env.preexisting = false ∧ env.clone_ok = false then
    ({ success := false
       message := "Failed to clone repository: " ++ env.clone_message
       repo_path := none
       total_chunks := none
       chunks := []
       vulnerability_report := none },
     { cleanup_ran := false, dir_removed := false })
  else
    let repo_path := "github_repos/" ++ lastSegment repo_name
    let body : RunResult :=
      if env.process_ok = false then
        { success := false
          message := "Error processing repository: " ++ env.process_error
          repo_path := none
          total_chunks := none
          chunks := []
          vulnerability_report := none }
      else
        { success := true
          message := "Successfully processed repository: " ++ repo_name
          repo_path := some repo_path
          total_chunks := some env.process_chunks.length
          chunks := env.process_chunks
          vulnerability_report :=
            if env.analysis_ok then some (mkPipelineVulnReport env.scan_results) else none }
    (body, { cleanup_ran := true, dir_removed := true })

/-- C5: whenever the clone directory came to exist for this run (pre-existing
at start, or freshly cloned), the `finally` cleanup runs and removes it on
every exit path; and when cloning fails, the run returns a failure result
immediately with no cleanup. -/
theorem run_pipeline_cleanup_paths (repo_name : String) (env : PipelineEnv) :
    (env.preexisting = true ∨ env.clone_ok = true →
      (run_pipeline repo_name env).2.cleanup_ran = true ∧
        (run_pipeline repo_name env).2.dir_removed = true) ∧
    (env.preexisting = false ∧ env.clone_ok = false →
      (run_pipeline repo_name env).1.success = false ∧
        (run_pipeline repo_name env).2.cleanup_ran = false ∧
        (run_pipeline repo_name env).2.dir_removed = false) := by
  constructor
  · intro h
    have hcond : ¬ (env.preexisting = false ∧ env.clone_ok = false) := by
      rcases h with h | h <;> simp [h]
    simp [run_pipeline, hcond]
  · intro h
    simp [run_pipeline, h]

def envCloned : PipelineEnv :=
  { preexisting := false, clone_ok := true, clone_message := ""
    process_ok := false, process_chunks := [], process_error := "boom"
    save_ok := true, analysis_ok := true, scan_results := [], save_report_ok := true }

def envCloneFail : PipelineEnv :=
  { preexisting := false, clone_ok := false, clone_message := "auth"
    process_ok := true, process_chunks := [], process_error := ""
    save_ok := true, analysis_ok := true, scan_results := [], save_report_ok := true }

theorem run_pipeline_cleanup_paths_witness :
    ((run_pipeline "o/r" envCloned).2.cleanup_ran = true ∧
      (run_pipeline "o/r" envCloned).2.dir_removed = true) ∧
    ((run_pipeline "o/r" envCloneFail).1.success = false ∧
      (run_pipeline "o/r" envCloneFail).2.cleanup_ran = false ∧
      (run_pipeline "o/r" envCloneFail).2.dir_removed = false) :=
  ⟨(run_pipeline_cleanup_paths "o/r" envCloned).1 (Or.inr rfl),
    (run_pipeline_cleanup_paths "o/r" envCloneFail).2 ⟨rfl, rfl⟩⟩

/-- C6: when extraction and chunking succeed, a failure raised during
vulnerability analysis does not mark the run failed — `run_pipeline` still
returns `success = true` with the full chunk data and no vulnerability
report. -/
theorem run_pipeline_analysis_isolated (repo_name : String) (env : PipelineEnv)
    (hdir : env.preexisting = true ∨ env.clone_ok = true)
    (hproc : env.process_ok = true)
    (hana : env.analysis_ok = false) :
    (run_pipeline repo_name env).1.success = true ∧
      (run_pipeline repo_name env).1.chunks = env.process_chunks ∧
      (run_pipeline repo_name env).1.total_chunks = some env.process_chunks.length ∧
      (run_pipeline repo_name env).1.vulnerability_report = none := by
  have hcond : ¬ (env.preexisting = false ∧ env.clone_ok = false) := by
    rcases hdir with h | h <;> simp [h]
  simp [run_pipeline, hcond, hproc, hana]

def envAnalysisFail : PipelineEnv :=
  { preexisting := true, clone_ok := false, clone_message := ""
    process_ok := true, process_chunks := [mkChunk "a.py" 1 1 ["x"]], process_error := ""
    save_ok := true, analysis_ok := false, scan_results := [], save_report_ok := true }

theorem run_pipeline_analysis_isolated_witness :
    (run_pipeline "o/r" envAnalysisFail).1.success = true ∧
      (run_pipeline "o/r" envAnalysisFail).1.chunks = envAnalysisFail.process_chunks ∧
      (run_pipeline "o/r" envAnalysisFail).1.total_chunks =
        some envAnalysisFail.process_chunks.length ∧
      (run_pipeline "o/r" envAnalysisFail).1.vulnerability_report = none :=
  run_pipeline_analysis_isolated "o/r" envAnalysisFail (Or.inl rfl) rfl rfl

/-- Model PipelineResult from schemas.py lines 16-25 (datetimes as `Nat`), the
document shape stored in the `pipeline_results` collection. -/
structure PipelineRecord where
  user_id : String
  github_id : String
  repo_id : String
  repo_name : String
  chunks : List Chunk
  total_chunks : Nat
  repo_path : Option String
  created_at : Nat
  updated_at : Nat
deriving DecidableEq

/-- Replacing the first record matched by `p` with `nd`: the effect of
`update_one({"_id": existing["_id"]}, {"$set": update_data})` when
`existing` was obtained by `find_one` on the same collection — `$set` with
every model field overwrites the whole document. -/
def updateFirst {α : Type} : List α → (α → Bool) → α → List α
  | [], _, _ => []
  | d :: rest, p, nd => if p d then nd :: rest else d :: updateFirst rest p nd

/-- The identity-key query of mongo_utils.py lines 69-73 and 157-161. -/
def pipelineKeyMatch (u g r : String) (d : PipelineRecord) : Bool :=
  d.user_id == u && d.github_id == g && d.repo_id == r

def findOnePipeline (db : List PipelineRecord) (u g r : String) : Option PipelineRecord :=
  db.find? (pipelineKeyMatch u g r)

/-- Function save_pipeline_result from mongo_utils.py lines 51-102: build the new
document (both timestamps `now`), then upsert by key — when a record already
exists, `$set` all fields but keep the existing `created_at` and refresh
`updated_at`; otherwise insert. -/
def save_pipeline_result (db : List PipelineRecord) (u g r rname : String)
    (chunks : List Chunk) (repo_path : Option String) (now : Nat) : List PipelineRecord :=
  let doc : PipelineRecord :=
    { user_id := u
      github_id := g
      repo_id := r
      repo_name := rname
      chunks := chunks
      total_chunks := chunks.length
      repo_path := repo_path
      created_at := now
      updated_at := now }
  match findOnePipeline db u g r with
  | some existing =>
      updateFirst db (pipelineKeyMatch u g r)
        { doc with created_at := existing.created_at, updated_at := now }
  | none => db ++ [doc]

def vulnKeyMatch (u g r : String) (d : VulnerabilityReport) : Bool :=
  d.user_id == u && d.github_id == g && d.repo_id == r

def findOneVulnReport (db : List VulnerabilityReport) (u g r : String) :
    Option VulnerabilityReport :=
  db.find? (vulnKeyMatch u g r)

/-- Function save_vulnerability_report from mongo_utils.py lines 104-178: build the
report value (counts, total, both timestamps `now`), then upsert by key,
preserving the existing `created_at` and refreshing `updated_at` when a
report already exists. -/
def save_vulnerability_report (db : List VulnerabilityReport) (u g r rname : String)
    (scan_results : List VulnerabilityScanResult) (now : Nat) : List VulnerabilityReport :=
  let doc := buildVulnerabilityReport u g r rname scan_results now
  match findOneVulnReport db u g r with
  | some existing =>
      updateFirst db (vulnKeyMatch u g r)
        { doc with created_at := existing.created_at, updated_at := now }
  | none => db ++ [doc]

theorem find?_updateFirst {α : Type} (p : α → Bool) (nd : α) (hnd : p nd = true) :
    ∀ (db : List α) (d0 : α), db.find? p = some d0 →
      (updateFirst db p nd).find? p = some nd := by
  intro db
  induction db with
  | nil => intro d0 h; simp at h
  | cons d rest ih =>
    intro d0 h
    by_cases hd : p d = true
    · simp only [updateFirst, if_pos hd, List.find?_cons_of_pos _ hnd]
    · rw [List.find?_cons_of_neg _ (by simp [hd])] at h
      simp only [updateFirst, if_neg hd]
      rw [List.find?_cons_of_neg _ (by simp [hd])]
      exact ih d0 h

/-- C9: re-running persistence for an existing key upserts in place: the
stored record's fields are overwritten with the new values while the original
`created_at` is preserved and `updated_at` is set to the new clock — for both
pipeline chunk records and vulnerability reports. -/
theorem save_upsert_preserves_created_at
    (pdb : List PipelineRecord) (vdb : List VulnerabilityReport)
    (u g r rname : String) (chunks : List Chunk) (rp : Option String)
    (srs : List VulnerabilityScanResult) (now : Nat)
    (p0 : PipelineRecord) (hp : findOnePipeline pdb u g r = some p0)
    (v0 : VulnerabilityReport) (hv : findOneVulnReport vdb u g r = some v0) :
    (∃ d, findOnePipeline (save_pipeline_result pdb u g r rname chunks rp now) u g r =
        some d ∧
      d.created_at = p0.created_at ∧ d.updated_at = now ∧ d.repo_name = rname ∧
      d.chunks = chunks ∧ d.total_chunks = chunks.length ∧ d.repo_path = rp) ∧
    (∃ d, findOneVulnReport (save_vulnerability_report vdb u g r rname srs now) u g r =
        some d ∧
      d.created_at = v0.created_at ∧ d.updated_at = now ∧ d.repo_name = rname ∧
      d.scan_results = srs ∧
      d.total_vulnerabilities = ((srs.map (fun s => s.vulnerabilities)).flatten).length) := by
  have hpe : save_pipeline_result pdb u g r rname chunks rp now =
      updateFirst pdb (pipelineKeyMatch u g r)
        { user_id := u, github_id := g, repo_id := r, repo_name := rname,
          chunks := chunks, total_chunks := chunks.length, repo_path := rp,
          created_at := p0.created_at, updated_at := now } := by
    simp only [save_pipeline_result]
    rw [hp]
  have hve : save_vulnerability_report vdb u g r rname srs now =
      updateFirst vdb (vulnKeyMatch u g r)
        { buildVulnerabilityReport u g r rname srs now with
            created_at := v0.created_at, updated_at := now } := by
    simp only [save_vulnerability_report]
    rw [hv]
  constructor
  · refine Exists.intro
      { user_id := u, github_id := g, repo_id := r, repo_name := rname,
        chunks := chunks, total_chunks := chunks.length, repo_path := rp,
        created_at := p0.created_at, updated_at := now }
      ⟨?_, rfl, rfl, rfl, rfl, rfl, rfl⟩
    rw [hpe, findOnePipeline]
    exact find?_updateFirst _ _ (by simp [pipelineKeyMatch]) pdb p0 hp
  · refine Exists.intro
      { buildVulnerabilityReport u g r rname srs now with
        created_at := v0.created_at, updated_at := now }
      ⟨?_, rfl, rfl, rfl, rfl, rfl⟩
    rw [hve, findOneVulnReport]
    exact find?_updateFirst _ _ (by simp [vulnKeyMatch, buildVulnerabilityReport]) vdb v0 hv

/-- A pre-existing pipeline record and vulnerability report for key
(u1, g1, r1), stored at clock 5. -/
def pRec0 : PipelineRecord :=
  { user_id := "u1", github_id := "g1", repo_id := "r1", repo_name := "o/r"
    chunks := [], total_chunks := 0, repo_path := none
    created_at := 5, updated_at := 5 }

def vRec0 : VulnerabilityReport :=
  buildVulnerabilityReport "u1" "g1" "r1" "o/r" [] 5

theorem save_upsert_preserves_created_at_witness :
    (∃ d, findOnePipeline
        (save_pipeline_result [pRec0] "u1" "g1" "r1" "o/r" [mkChunk "a.py" 1 1 ["x"]] none 9)
        "u1" "g1" "r1" = some d ∧
      d.created_at = pRec0.created_at ∧ d.updated_at = 9 ∧ d.repo_name = "o/r" ∧
      d.chunks = [mkChunk "a.py" 1 1 ["x"]] ∧
      d.total_chunks = [mkChunk "a.py" 1 1 ["x"]].length ∧ d.repo_path = none) ∧
    (∃ d, findOneVulnReport
        (save_vulnerability_report [vRec0] "u1" "g1" "r1" "o/r" [scanW] 9)
        "u1" "g1" "r1" = some d ∧
      d.created_at = vRec0.created_at ∧ d.updated_at = 9 ∧ d.repo_name = "o/r" ∧
      d.scan_results = [scanW] ∧
      d.total_vulnerabilities =
        (([scanW].map (fun s => s.vulnerabilities)).flatten).length) :=
  save_upsert_preserves_created_at [pRec0] [vRec0] "u1" "g1" "r1" "o/r"
    [mkChunk "a.py" 1 1 ["x"]] none [scanW] 9 pRec0 (by decide) vRec0 (by decide)

end CodeShield
